import Mathlib

/-!
Verification development for the lnc toolchain: a shallow embedding of the
lexer, parser, assembler and interpreter of a 100-word decimal accumulator
machine, together with theorems settling the frozen claims about the
natural-language specification.

The embedding follows the Rust source closely:
  interpreter.rs : LNCInput, Interpreter and its step function and handlers
  assembler.rs   : assemble, resolve_addr, resolve_symb_addr
  lex.rs         : per-line lexer and tokenize
  parse.rs       : recovering parser producing ParseInfo
  lib.rs         : make_program error aggregation
Memory `[usize; 100]` is a function from Fin 100; an out-of-bounds fetch
(a Rust panic) appears as the value `none` of an Option layer.  The input
port is the queue-backed source of vec_io.rs (QueueInput), whose elements
are LNCInput values, below 1000 by construction; the output port is the
capturing stack (StackOutput); the logger port is a list of messages.
-/

namespace LNC

/-- The fixed 100-cell memory image, mirroring the Rust array type. -/
abbrev Mem := Fin 100 → Nat

/-- LNCInput from interpreter.rs: a value that is below 1000 by
construction, since the only constructor rejects anything larger. -/
structure LNCInput where
  val : Nat
  isLt : val < 1000

/-- interpreter.rs LNCInput::new: accept a number below 1000, reject the
rest. -/
def LNCInput.new (num : Nat) : Option LNCInput :=
  if h : num < 1000 then some ⟨num, h⟩ else none

/-- The mutable fields of the Interpreter struct of interpreter.rs. -/
structure InterpSt where
  mem : Mem
  pc : Nat
  acc : Nat
  neg_flag : Bool
  halted : Bool

/-- An interpreter together with its three injected ports: the queue
backed input source, the capturing output sink, and the logger. -/
structure Config where
  st : InterpSt
  inputQ : List LNCInput
  outStack : List Nat
  logs : List String

/-- Append one message through the logger port. -/
def logMsg (c : Config) (m : String) : Config :=
  { c with logs := c.logs ++ [m] }

/-- interpreter.rs Interpreter::new with the given memory image and an
initially queued input list: pc, acc start at zero and both flags false. -/
def initConfig (mem : Mem) (inputQ : List LNCInput) : Config :=
  { st := { mem := mem, pc := 0, acc := 0, neg_flag := false, halted := false }
    inputQ := inputQ, outStack := [], logs := [] }

/-- interpreter.rs lda: load memory cell into the accumulator. -/
def lda (addr : Fin 100) (c : Config) : Config :=
  let c := logMsg c ("--> lda " ++ toString addr.val)
  { c with st := { c.st with acc := c.st.mem addr } }

/-- interpreter.rs sto: store the accumulator into a memory cell. -/
def sto (addr : Fin 100) (c : Config) : Config :=
  let c := logMsg c ("--> sto " ++ toString addr.val)
  { c with st := { c.st with mem := Function.update c.st.mem addr c.st.acc } }

/-- interpreter.rs inp: take one value from the input port (the queue
backed source of vec_io.rs, which fails when its queue is empty) and put
it into the accumulator, propagating the failure of the port. -/
def inp (c : Config) : Config × Except String Unit :=
  let c := logMsg c "--> inp"
  match c.inputQ with
  | [] => (c, .error "error: input queue is empty!")
  | v :: rest =>
    let c := { c with inputQ := rest }
    let c := logMsg c ("--> " ++ toString v.val ++ " was input value")
    ({ c with st := { c.st with acc := v.val } }, .ok ())

/-- interpreter.rs out: push the accumulator to the output port. -/
def out (c : Config) : Config :=
  let c := logMsg c "--> out"
  let c := logMsg c ("--> " ++ toString c.st.acc ++ " was output value")
  { c with outStack := c.outStack ++ [c.st.acc] }

/-- interpreter.rs hlt: set the halted flag. -/
def hlt (c : Config) : Config :=
  let c := logMsg c "--> hlt"
  { c with st := { c.st with halted := true } }

/-- interpreter.rs add: add a memory cell to the accumulator modulo 1000,
logging on unwrapped overflow, and clear the negative flag. -/
def addIns (addr : Fin 100) (c : Config) : Config :=
  let c := logMsg c ("--> add " ++ toString addr.val)
  let new_val := c.st.acc + c.st.mem addr
  let c :=
    if new_val ≥ 1000 then
      logMsg c ("--> " ++ toString c.st.acc ++ " + " ++ toString (c.st.mem addr)
        ++ " = " ++ toString new_val ++ " >= 1000: overflow")
    else c
  { c with st := { c.st with acc := new_val % 1000, neg_flag := false } }

/-- interpreter.rs sub: signed subtraction of a memory cell from the
accumulator; the negative flag records a negative true difference, and the
accumulator receives `(diff + 1000) as usize % 1000`, the usize cast being
the two's-complement wrap modulo 2 to the 64. -/
def subIns (addr : Fin 100) (c : Config) : Config :=
  let c := logMsg c ("--> sub " ++ toString addr.val)
  let new_val : Int := (c.st.acc : Int) - (c.st.mem addr : Int)
  let nf : Bool := new_val < 0
  let c :=
    if nf then
      logMsg (logMsg c ("--> " ++ toString c.st.acc ++ " - "
        ++ toString (c.st.mem addr) ++ " = " ++ toString new_val
        ++ " < 1000: underflow")) "neg_flag set"
    else c
  { c with st := { c.st with
      neg_flag := nf
      acc := ((new_val + 1000).emod (2 ^ 64)).toNat % 1000 } }

/-- interpreter.rs brz: branch when the accumulator is zero. -/
def brz (addr : Fin 100) (c : Config) : Config :=
  let c := logMsg c ("--> brz " ++ toString addr.val)
  if c.st.acc = 0 then { c with st := { c.st with pc := addr.val } } else c

/-- interpreter.rs brp: branch when the negative flag is clear, so zero
counts as positive. -/
def brp (addr : Fin 100) (c : Config) : Config :=
  let c := logMsg c ("--> brp " ++ toString addr.val)
  if !c.st.neg_flag then { c with st := { c.st with pc := addr.val } } else c

/-- interpreter.rs bra: branch unconditionally. -/
def bra (addr : Fin 100) (c : Config) : Config :=
  let c := logMsg c ("--> bra " ++ toString addr.val)
  { c with st := { c.st with pc := addr.val } }

/-- The undefined-instruction message of step, formatting the class digit
and the operand as the Rust format string does. -/
def undefMsg (d op : Nat) : String :=
  toString d ++ toString op ++ ": undefined instruction"

/-- The fetch bookkeeping of interpreter.rs step: log the fetched code
and advance pc past it. -/
def afterFetch (c : Config) (code : Nat) : Config :=
  let c := logMsg c ("Fetched instruction: " ++ toString code
    ++ " at address " ++ toString c.st.pc)
  { c with st := { c.st with pc := c.st.pc + 1 } }

/-- interpreter.rs step: a no-op with a log event when already halted;
otherwise fetch the code at pc (`none` models the Rust index panic when pc
is outside the image), log the fetch, advance pc, split the code into its
class digit and operand, and dispatch exactly as the Rust match does.  The
returned Except value is the Result of step; the Config carries the state
after the call, also when the Result is an error. -/
def step (c : Config) : Option (Config × Except String Unit) :=
  if c.st.halted then
    some (logMsg c "Cannot step: interpreter is halted", .ok ())
  else if h : c.st.pc < 100 then
    let code := c.st.mem ⟨c.st.pc, h⟩
    let c := afterFetch c code
    let first_digit := code / 100
    let op := code % 100
    let opf : Fin 100 := ⟨op, Nat.mod_lt _ (by norm_num)⟩
    if first_digit = 5 then some (lda opf c, .ok ())
    else if first_digit = 3 then some (sto opf c, .ok ())
    else if first_digit = 1 then some (addIns opf c, .ok ())
    else if first_digit = 2 then some (subIns opf c, .ok ())
    else if first_digit = 9 then
      if op = 1 then some (inp c)
      else if op = 2 then some (out c, .ok ())
      else some (c, .error (undefMsg first_digit op))
    else if first_digit = 0 then
      if op = 0 then some (hlt c, .ok ())
      else some (c, .error (undefMsg first_digit op))
    else if first_digit = 7 then some (brz opf c, .ok ())
    else if first_digit = 8 then some (brp opf c, .ok ())
    else if first_digit = 6 then some (bra opf c, .ok ())
    else some (c, .error (undefMsg first_digit op))
  else none

/-- One successful step: defined exactly when step neither panics nor
returns an error. -/
def stepOk (c : Config) : Option Config :=
  match step c with
  | some (c', .ok _) => some c'
  | _ => none

/-- A sequence of n successful step calls. -/
def runOk : Nat → Config → Option Config
  | 0, c => some c
  | n + 1, c =>
    match stepOk c with
    | some c' => runOk n c'
    | none => none

/-- parse.rs Address: an address operand, symbolic until assembly or
already numeric. -/
inductive Address where
  | Symbolic (label : String)
  | Numeric (n : Nat)
deriving DecidableEq

/-- parse.rs Instruction: the eleven opcodes; the seven address-taking
forms carry an Address, Data carries a literal. -/
inductive Instruction where
  | Load (a : Address)
  | Store (a : Address)
  | Add (a : Address)
  | Subtract (a : Address)
  | Input
  | Output
  | Halt
  | BranchZero (a : Address)
  | BranchPositive (a : Address)
  | BranchAlways (a : Address)
  | Data (d : Nat)
deriving DecidableEq

/-- parse.rs LNCTest: one inline test declaration. -/
structure LNCTest where
  name : String
  inputs : List Nat
  outputs : List Nat
deriving DecidableEq

/-- The label map of parse.rs, a HashMap from label name to program
address; modelled as an association list whose lookup takes the most
recent insertion, matching the overwrite of HashMap::insert. -/
abbrev LabelMap := List (String × Nat)

/-- parse.rs ParseInfo: the parser output consumed by the assembler. -/
structure ParseInfo where
  instructions : List Instruction
  label_map : LabelMap
  tests : List LNCTest

/-- assembler.rs resolve_symb_addr: look the label up, failing with the
undefined-label diagnostic when absent. -/
def resolve_symb_addr (label : String) (lm : LabelMap) : Except String Nat :=
  match lm.lookup label with
  | some addr => .ok addr
  | none => .error ("Label '" ++ label ++ "' is not defined")

/-- assembler.rs resolve_addr: a numeric address is used as-is, a symbolic
one is looked up. -/
def resolve_addr (a : Address) (lm : LabelMap) : Except String Nat :=
  match a with
  | .Symbolic label => resolve_symb_addr label lm
  | .Numeric n => .ok n

/-- The encoding match of assembler.rs assemble: the code written for one
instruction, propagating address-resolution failure. -/
def encodeIns (ins : Instruction) (lm : LabelMap) : Except String Nat :=
  match ins with
  | .Load a => (resolve_addr a lm).map (fun n => 500 + n)
  | .Store a => (resolve_addr a lm).map (fun n => 300 + n)
  | .Add a => (resolve_addr a lm).map (fun n => 100 + n)
  | .Subtract a => (resolve_addr a lm).map (fun n => 200 + n)
  | .Input => .ok 901
  | .Output => .ok 902
  | .Halt => .ok 0
  | .BranchZero a => (resolve_addr a lm).map (fun n => 700 + n)
  | .BranchPositive a => (resolve_addr a lm).map (fun n => 800 + n)
  | .BranchAlways a => (resolve_addr a lm).map (fun n => 600 + n)
  | .Data d => .ok d

/-- The enumerate loop of assembler.rs assemble: write the code of each
instruction at its program address, stopping at the first resolution
failure; `none` models the Rust index panic on an address outside the
image, which the capacity check of assemble makes unreachable. -/
def assembleLoop (lm : LabelMap) : List Instruction → Nat → Mem →
    Option (Except String Mem)
  | [], _, mem => some (.ok mem)
  | ins :: rest, paddr, mem =>
    match encodeIns ins lm with
    | .error e => some (.error e)
    | .ok code =>
      if h : paddr < 100 then
        assembleLoop lm rest (paddr + 1) (Function.update mem ⟨paddr, h⟩ code)
      else none

/-- assembler.rs assemble: reject programs of 100 or more instructions
before encoding anything, otherwise encode each instruction in program
order into a zero-initialised 100-cell image. -/
def assemble (pi : ParseInfo) : Option (Except String Mem) :=
  if pi.instructions.length ≥ 100 then
    some (.error ("Too many instructions: " ++ toString pi.instructions.length
      ++ " > 100"))
  else
    assembleLoop pi.label_map pi.instructions 0 (fun _ => 0)

/-- The address operand of an instruction, when it has one. -/
def insAddr : Instruction → Option Address
  | .Load a | .Store a | .Add a | .Subtract a => some a
  | .BranchZero a | .BranchPositive a | .BranchAlways a => some a
  | _ => none

/-- Modelled from the spec wording of the claims: the encoding table
Load → 500+addr, Store → 300+addr, Add → 100+addr, Subtract → 200+addr,
BranchZero → 700+addr, BranchPositive → 800+addr, BranchAlways → 600+addr,
Input → 901, Output → 902, Halt → 0, Data → the literal value, where addr
is the numeric address as-is or the label-map entry of a symbolic one.
Kept separate from encodeIns so theorems can compare the assembler output
with the encoding the specification describes. -/
def specEncode (ins : Instruction) (lm : LabelMap) : Option Nat :=
  let res : Address → Option Nat := fun a =>
    match a with
    | .Numeric n => some n
    | .Symbolic s => lm.lookup s
  match ins with
  | .Load a => (res a).map (fun n => 500 + n)
  | .Store a => (res a).map (fun n => 300 + n)
  | .Add a => (res a).map (fun n => 100 + n)
  | .Subtract a => (res a).map (fun n => 200 + n)
  | .Input => some 901
  | .Output => some 902
  | .Halt => some 0
  | .BranchZero a => (res a).map (fun n => 700 + n)
  | .BranchPositive a => (res a).map (fun n => 800 + n)
  | .BranchAlways a => (res a).map (fun n => 600 + n)
  | .Data d => some d

/-- Well-formedness of one instruction, the ranges the data model of the
spec assigns and the parser enforces: numeric addresses below 100 and
data literals below 1000. -/
def insWF : Instruction → Prop
  | .Data d => d < 1000
  | ins =>
    match insAddr ins with
    | some (.Numeric n) => n < 100
    | _ => True

/-- Well-formedness of parse output per the data model of the spec: every
instruction in range and every label bound to a program address. -/
def wfParseInfo (pi : ParseInfo) : Prop :=
  (∀ ins ∈ pi.instructions, insWF ins) ∧ ∀ p ∈ pi.label_map, p.2 < 100

/-- The value-range invariant of the spec on interpreter state: the
accumulator and every memory cell hold values below 1000. -/
def InvBounds (c : Config) : Prop :=
  c.st.acc < 1000 ∧ ∀ i, c.st.mem i < 1000

/-- lex.rs TokenKind, the tagged token variants. -/
inductive TokenKind where
  | Number (n : Nat)
  | Label (s : String)
  | LabelDef (s : String)
  | Load
  | Store
  | Add
  | Subtract
  | Input
  | Output
  | Halt
  | BranchZero
  | BranchPositive
  | BranchAlways
  | Data
  | NewLine
  | Eof
  | TestName (s : String)
  | OpenSquareBracket
  | CloseSquareBracket
  | Comma
deriving DecidableEq

/-- lex.rs Token: a kind paired with its 0-based source line. -/
structure Token where
  kind : TokenKind
  line : Nat
deriving DecidableEq

/-- lex.rs map_kw: the fixed mnemonic table. -/
def mapKw (word : String) : Option TokenKind :=
  if word = "lda" then some .Load
  else if word = "sto" then some .Store
  else if word = "add" then some .Add
  else if word = "sub" then some .Subtract
  else if word = "inp" then some .Input
  else if word = "out" then some .Output
  else if word = "hlt" then some .Halt
  else if word = "brz" then some .BranchZero
  else if word = "brp" then some .BranchPositive
  else if word = "bra" then some .BranchAlways
  else if word = "dat" then some .Data
  else none

/-- The line-scoped error prefix shared by lex.rs make_err_msg and
parse.rs add_err_msg. -/
def makeErrMsg (line : Nat) (msg : String) : String :=
  "error @ line " ++ toString line ++ ": " ++ msg

/-- An identifier-continuation character: ascii alphanumeric or an
underscore. -/
def isIdentCh (c : Char) : Bool := c.isAlphanum || c = '_'

/-- Decimal value of a digit run. -/
def digitsVal (l : List Char) : Nat :=
  l.foldl (fun a c => a * 10 + (c.toNat - 48)) 0

/-- lex.rs number: a digit run is a decimal literal; parsing fails only
when the value does not fit in usize. -/
def numberToken (line : Nat) (ch : Char) (rest : List Char) :
    Except String (Token × List Char) :=
  let p := rest.span Char.isDigit
  let lexeme := ch :: p.1
  let n := digitsVal lexeme
  if n < 2 ^ 64 then .ok (⟨.Number n, line⟩, p.2)
  else .error (makeErrMsg line
    ("invalid number literal \"" ++ String.mk lexeme ++ "\""))

/-- lex.rs kw_or_label: an identifier run is a mnemonic, a label
definition when followed by a colon (which is consumed), or a label
reference; a mnemonic followed by a colon is a lexical error. -/
def kwOrLabel (line : Nat) (ch : Char) (rest : List Char) :
    Except String (Token × List Char) :=
  let p := rest.span isIdentCh
  let lexeme := String.mk (ch :: p.1)
  let isLabelDef := match p.2 with
    | ':' :: _ => true
    | _ => false
  match mapKw lexeme with
  | some kind =>
    if isLabelDef then
      .error (makeErrMsg line
        ("cannot use keyword \"" ++ lexeme ++ "\" as label name"))
    else .ok (⟨kind, line⟩, p.2)
  | none =>
    if isLabelDef then .ok (⟨.LabelDef lexeme, line⟩, p.2.tail)
    else .ok (⟨.Label lexeme, line⟩, p.2)

/-- lex.rs test_name: a dot introduces a test name, whose first character
must be a letter or an underscore.  These two diagnostics carry no line
prefix in the source. -/
def testNameToken (line : Nat) (rest : List Char) :
    Except String (Token × List Char) :=
  match rest with
  | [] => .error "tests must have a name"
  | ch :: rest1 =>
    if !(ch.isAlpha || ch = '_') then
      .error ("unexpected character '" ++ String.mk [ch]
        ++ "': test names must start with a letter or '_'")
    else
      let p := rest1.span isIdentCh
      .ok (⟨.TestName (String.mk (ch :: p.1)), line⟩, p.2)

/-- lex.rs make_tokens: tokenize one line, ending at a comment or the end
of the line with a synthetic NewLine token.  The fuel argument only bounds
the recursion; every call site passes more fuel than there are characters,
and each round consumes at least one character, so the fuel branch is
unreachable there. -/
def makeTokens (line : Nat) : Nat → List Char → List Token →
    Except String (List Token)
  | 0, _, _ => .error "lexer fuel exhausted"
  | _ + 1, [], toks => .ok (toks ++ [⟨.NewLine, line⟩])
  | fuel + 1, ch :: rest, toks =>
    if ch = ';' then .ok (toks ++ [⟨.NewLine, line⟩])
    else if ch = '.' then
      match testNameToken line rest with
      | .error e => .error e
      | .ok (t, rest') => makeTokens line fuel rest' (toks ++ [t])
    else if ch = '[' then
      makeTokens line fuel rest (toks ++ [⟨.OpenSquareBracket, line⟩])
    else if ch = ']' then
      makeTokens line fuel rest (toks ++ [⟨.CloseSquareBracket, line⟩])
    else if ch = ',' then
      makeTokens line fuel rest (toks ++ [⟨.Comma, line⟩])
    else if ch.isWhitespace then makeTokens line fuel rest toks
    else if ch.isDigit then
      match numberToken line ch rest with
      | .error e => .error e
      | .ok (t, rest') => makeTokens line fuel rest' (toks ++ [t])
    else if ch.isAlpha then
      match kwOrLabel line ch rest with
      | .error e => .error e
      | .ok (t, rest') => makeTokens line fuel rest' (toks ++ [t])
    else .error (makeErrMsg line
      ("unexpected character '" ++ String.mk [ch] ++ "'"))

/-- Split a character list at newline characters; never empty. -/
def splitNl : List Char → List (List Char)
  | [] => [[]]
  | c :: cs =>
    if c = '\n' then [] :: splitNl cs
    else
      match splitNl cs with
      | [] => [[c]]
      | h :: t => (c :: h) :: t

/-- Strip one trailing carriage return, as Rust str::lines does. -/
def stripCr (l : List Char) : List Char :=
  if l.getLast? = some '\r' then l.dropLast else l

/-- Rust str::lines: split at newlines, a final line ending producing no
extra empty line, each line stripped of one trailing carriage return. -/
def rustLines (source : List Char) : List (List Char) :=
  let parts := splitNl source
  let parts := if parts.getLast? = some [] then parts.dropLast else parts
  parts.map stripCr

/-- lex.rs tokenize: tokenize every line, concatenating the tokens of the
successful lines; the terminal Eof token is appended only when no line had
a lexical error, otherwise the per-line errors are joined by newlines and
returned together with the tokens that were produced. -/
def tokenize (source : String) : Except (List Token × String) (List Token) :=
  let ls := rustLines source.data
  let res := ls.enum.map (fun p => makeTokens p.1 (p.2.length + 1) p.2 [])
  let toks := res.foldl
    (fun acc r => match r with | .ok t => acc ++ t | .error _ => acc) []
  let errs := res.foldl
    (fun acc r => match r with | .ok _ => acc | .error e => acc ++ [e]) []
  if errs.isEmpty then .ok (toks ++ [⟨.Eof, ls.length⟩])
  else .error (toks, String.intercalate "\n" errs)

/-- The derive(Debug) rendering of a TokenKind, as Rust format {:?}
prints it inside parser diagnostics. -/
def debugKind : TokenKind → String
  | .Number n => "Number(" ++ toString n ++ ")"
  | .Label s => "Label(\"" ++ s ++ "\")"
  | .LabelDef s => "LabelDef(\"" ++ s ++ "\")"
  | .Load => "Load"
  | .Store => "Store"
  | .Add => "Add"
  | .Subtract => "Subtract"
  | .Input => "Input"
  | .Output => "Output"
  | .Halt => "Halt"
  | .BranchZero => "BranchZero"
  | .BranchPositive => "BranchPositive"
  | .BranchAlways => "BranchAlways"
  | .Data => "Data"
  | .NewLine => "NewLine"
  | .Eof => "Eof"
  | .TestName s => "TestName(\"" ++ s ++ "\")"
  | .OpenSquareBracket => "OpenSquareBracket"
  | .CloseSquareBracket => "CloseSquareBracket"
  | .Comma => "Comma"

/-- The derive(Debug) rendering of a whole Token. -/
def debugToken (t : Token) : String :=
  "Token \x7b kind: " ++ debugKind t.kind ++ ", line: " ++ toString t.line
    ++ " \x7d"

/-- parse.rs sync: skip forward to the next NewLine or Eof token, which
is left unconsumed. -/
def syncToks : List Token → List Token
  | [] => []
  | t :: rest =>
    match t.kind with
    | .NewLine => t :: rest
    | .Eof => t :: rest
    | _ => syncToks rest

/-- parse.rs check_next: require the next token to have exactly the given
kind, consuming it; an unexpected token is not consumed. -/
def checkNext (kind : TokenKind) (toks : List Token) :
    Except String Unit × List Token :=
  match toks with
  | [] => (.error ("unexpected EOF: expected " ++ debugKind kind), [])
  | t :: rest =>
    if t.kind = kind then (.ok (), rest)
    else (.error ("expected " ++ debugKind kind ++ ": found "
      ++ debugKind t.kind), t :: rest)

/-- parse.rs check_newline: require end of line or end of input, consuming
it; the EOF diagnostic text is the one the source uses here. -/
def checkNewline (toks : List Token) : Except String Unit × List Token :=
  match toks with
  | [] => (.error "unexpected EOF: expected address", [])
  | t :: rest =>
    match t.kind with
    | .NewLine => (.ok (), rest)
    | .Eof => (.ok (), rest)
    | _ => (.error ("invalid token " ++ debugToken t
      ++ ": expected end of line"), t :: rest)

/-- parse.rs ins_with_addr: consume one address token (a numeric literal
below 100 or a label reference), require end of line, and build the
instruction for the leading mnemonic token kind.  The final catch-all arm
is unreachable for the kinds the main loop dispatches here. -/
def insWithAddr (k : TokenKind) (toks : List Token) :
    Except String Instruction × List Token :=
  match toks with
  | [] => (.error "unexpected EOF: expected address", [])
  | addrTok :: rest =>
    let addrRes : Except String Address :=
      match addrTok.kind with
      | .Number n =>
        if n ≥ 100 then
          .error ("invalid address " ++ toString n ++ ": too large")
        else .ok (.Numeric n)
      | .Label s => .ok (.Symbolic s)
      | _ => .error ("invalid token " ++ debugToken addrTok
        ++ ": expected address")
    match addrRes with
    | .error e => (.error e, rest)
    | .ok addr =>
      match checkNewline rest with
      | (.error e, rest') => (.error e, rest')
      | (.ok _, rest') =>
        let ins :=
          match k with
          | .Load => Instruction.Load addr
          | .Store => Instruction.Store addr
          | .Add => Instruction.Add addr
          | .Subtract => Instruction.Subtract addr
          | .BranchZero => Instruction.BranchZero addr
          | .BranchPositive => Instruction.BranchPositive addr
          | _ => Instruction.BranchAlways addr
        (.ok ins, rest')

/-- parse.rs ins_without_addr: require end of line and build the
instruction; the catch-all arm is unreachable for the dispatched kinds. -/
def insWithoutAddr (k : TokenKind) (toks : List Token) :
    Except String Instruction × List Token :=
  match checkNewline toks with
  | (.error e, rest') => (.error e, rest')
  | (.ok _, rest') =>
    let ins :=
      match k with
      | .Input => Instruction.Input
      | .Output => Instruction.Output
      | _ => Instruction.Halt
    (.ok ins, rest')

/-- parse.rs data: consume one numeric literal below 1000 and build a
Data instruction; no end-of-line check follows, as in the source. -/
def dataIns (toks : List Token) : Except String Instruction × List Token :=
  match toks with
  | [] => (.error "io token found", [])
  | numTok :: rest =>
    match numTok.kind with
    | .Number n =>
      if n ≥ 1000 then
        (.error ("invalid data " ++ toString n ++ ": too large"), rest)
      else (.ok (Instruction.Data n), rest)
    | _ => (.error ("invalid token " ++ debugToken numTok
      ++ ": expected number"), rest)

/-- The while loop of parse.rs number_list: numbers below 1000 separated
by commas, a trailing comma permitted, stopping unconsumed at a closing
bracket. -/
def numberListLoop : List Token → Bool → List Nat →
    Except String Unit × List Nat × List Token
  | [], _, nums => (.ok (), nums, [])
  | t :: rest, prevWasNum, nums =>
    match t.kind with
    | .Number n =>
      if prevWasNum then
        (.error ("expected ',' or ']': found number (" ++ toString n ++ ")"),
          nums, t :: rest)
      else if n ≥ 1000 then
        (.error ("invalid number " ++ toString n ++ ": too large"),
          nums, t :: rest)
      else numberListLoop rest true (nums ++ [n])
    | .Comma =>
      if !prevWasNum then (.error "unexpected ','", nums, t :: rest)
      else numberListLoop rest false nums
    | .CloseSquareBracket => (.ok (), nums, t :: rest)
    | _ => (.error ("expected number, ',', or ']': found " ++ debugToken t),
      nums, t :: rest)

/-- parse.rs number_list: a bracketed comma-separated list of numeric
literals. -/
def numberList (toks : List Token) : Except String (List Nat) × List Token :=
  match checkNext .OpenSquareBracket toks with
  | (.error e, rest) => (.error e, rest)
  | (.ok _, rest) =>
    match numberListLoop rest false [] with
    | (.error e, _, rest') => (.error e, rest')
    | (.ok _, nums, rest') =>
      match checkNext .CloseSquareBracket rest' with
      | (.error e, rest'') => (.error e, rest'')
      | (.ok _, nums') => (.ok nums, nums')

/-- parse.rs lnc_test: two number lists then end of line. -/
def lncTest (name : String) (toks : List Token) :
    Except String LNCTest × List Token :=
  match numberList toks with
  | (.error e, rest) => (.error e, rest)
  | (.ok inputs, rest) =>
    match numberList rest with
    | (.error e, rest') => (.error e, rest')
    | (.ok outputs, rest') =>
      match checkNewline rest' with
      | (.error e, rest'') => (.error e, rest'')
      | (.ok _, rest'') => (.ok ⟨name, inputs, outputs⟩, rest'')

/-- HashMap::insert on the association-list label map: the new binding
shadows any earlier one. -/
def hmInsert (m : LabelMap) (k : String) (v : Nat) : LabelMap := (k, v) :: m

/-- The accumulated errors turned into the parse result, as the end of
parse.rs make_instructions does. -/
def finishParse (info : ParseInfo) (errors : List String) :
    Except (ParseInfo × String) ParseInfo :=
  if errors.isEmpty then .ok info
  else .error (info, String.intercalate "\n" errors)

/-- The statement loop of parse.rs make_instructions: dispatch on the
leading token; emitting an instruction appends it and advances the
program-address counter; a failed statement records a line-scoped
diagnostic and skips to the next statement boundary.  The fuel argument
only bounds the recursion; each round consumes at least one token and
every call site passes more fuel than there are tokens, so the fuel branch
is unreachable there. -/
def makeInstructions : Nat → List Token → Nat → ParseInfo → List String →
    Except (ParseInfo × String) ParseInfo
  | 0, _, _, info, errors =>
    .error (info, String.intercalate "\n" (errors ++ ["parser fuel exhausted"]))
  | _ + 1, [], _, info, errors => finishParse info errors
  | fuel + 1, tok :: rest, paddr, info, errors =>
    match tok.kind with
    | .Eof => finishParse info errors
    | .NewLine => makeInstructions fuel rest paddr info errors
    | .LabelDef s =>
      makeInstructions fuel rest paddr
        { info with label_map := hmInsert info.label_map s paddr } errors
    | .Load | .Store | .Add | .Subtract
    | .BranchZero | .BranchPositive | .BranchAlways =>
      match insWithAddr tok.kind rest with
      | (.ok ins, rest') =>
        makeInstructions fuel rest' (paddr + 1)
          { info with instructions := info.instructions ++ [ins] } errors
      | (.error e, rest') =>
        makeInstructions fuel (syncToks rest') paddr info
          (errors ++ [makeErrMsg tok.line e])
    | .Input | .Output | .Halt =>
      match insWithoutAddr tok.kind rest with
      | (.ok ins, rest') =>
        makeInstructions fuel rest' (paddr + 1)
          { info with instructions := info.instructions ++ [ins] } errors
      | (.error e, rest') =>
        makeInstructions fuel (syncToks rest') paddr info
          (errors ++ [makeErrMsg tok.line e])
    | .Data =>
      match dataIns rest with
      | (.ok ins, rest') =>
        makeInstructions fuel rest' (paddr + 1)
          { info with instructions := info.instructions ++ [ins] } errors
      | (.error e, rest') =>
        makeInstructions fuel (syncToks rest') paddr info
          (errors ++ [makeErrMsg tok.line e])
    | .TestName s =>
      match lncTest s rest with
      | (.ok t, rest') =>
        makeInstructions fuel rest' paddr
          { info with tests := info.tests ++ [t] } errors
      | (.error e, rest') =>
        makeInstructions fuel (syncToks rest') paddr info
          (errors ++ [makeErrMsg tok.line e])
    | .Number n =>
      makeInstructions fuel (syncToks rest) paddr info (errors ++
        [makeErrMsg tok.line
          ("found number (" ++ toString n ++ ") instead of instruction/label def")])
    | .Label s =>
      makeInstructions fuel (syncToks rest) paddr info (errors ++
        [makeErrMsg tok.line
          ("found label \"" ++ s ++ "\" instead of instruction/label def")])
    | .OpenSquareBracket =>
      makeInstructions fuel (syncToks rest) paddr info
        (errors ++ [makeErrMsg tok.line "unexpected bracket '['"])
    | .CloseSquareBracket =>
      makeInstructions fuel (syncToks rest) paddr info
        (errors ++ [makeErrMsg tok.line "unexpected bracket ']'"])
    | .Comma =>
      makeInstructions fuel (syncToks rest) paddr info
        (errors ++ [makeErrMsg tok.line "unexpected comma ','"])

/-- parse.rs parse: run the statement loop on the whole token stream. -/
def parse (toks : List Token) : Except (ParseInfo × String) ParseInfo :=
  makeInstructions (toks.length + 1) toks 0 ⟨[], [], []⟩ []

/-- lib.rs LNCProgram. -/
structure LNCProgram where
  mem : Mem
  parse_info : ParseInfo

/-- lib.rs make_program: tokenize, parse and assemble, accumulating the
stage diagnostics; assembly failure aborts with every message joined by
newlines, and any earlier diagnostics likewise produce a joined error
instead of a program.  The `none` value propagates the unreachable panic
layer of assemble. -/
def make_program (source : String) : Option (Except String LNCProgram) :=
  let p1 : List Token × List String :=
    match tokenize source with
    | .ok toks => (toks, [])
    | .error (toks, e) => (toks, [e])
  let p2 : ParseInfo × List String :=
    match parse p1.1 with
    | .ok pi => (pi, p1.2)
    | .error (pi, e) => (pi, p1.2 ++ [e])
  match assemble p2.1 with
  | none => none
  | some (.error e) => some (.error (String.intercalate "\n" (p2.2 ++ [e])))
  | some (.ok mem) =>
    if p2.2.isEmpty then some (.ok ⟨mem, p2.1⟩)
    else some (.error (String.intercalate "\n" p2.2))

/-- The aggregate diagnostic of a compilation, when it failed. -/
def progErr : Option (Except String LNCProgram) → Option String
  | some (.error e) => some e
  | _ => none

/-- The code a non-halted step fetches. -/
def fetchedCode (c : Config) (hpc : c.st.pc < 100) : Nat :=
  c.st.mem ⟨c.st.pc, hpc⟩

/-- The dispatch operand of the fetched code, always a valid cell
index because it is a remainder modulo 100. -/
def fetchedOp (c : Config) (hpc : c.st.pc < 100) : Fin 100 :=
  ⟨fetchedCode c hpc % 100, Nat.mod_lt _ (by norm_num)⟩

/-- The all-zero memory image. -/
def zeroMem : Mem := fun _ => 0

/-- A memory image whose cell 0 branches to cell 99 and whose cell 99
holds an add instruction: two successful steps take the interpreter to
program counter 100 without halting. -/
def cexMem : Mem := fun i =>
  if i.val = 0 then 699 else if i.val = 99 then 104 else 0

/-- A memory image starting with add 5, cell 5 holding 7. -/
def wMemAdd : Mem := fun i =>
  if i.val = 0 then 105 else if i.val = 5 then 7 else 0

/-- A memory image starting with a subtract of cell 5, cell 5 holding
7. -/
def wMemSub : Mem := fun i =>
  if i.val = 0 then 205 else if i.val = 5 then 7 else 0

/-- A memory image starting with brp 42. -/
def wMemBrp : Mem := fun i => if i.val = 0 then 842 else 0

/-- A memory image starting with the undefined code 400. -/
def wMemUndef : Mem := fun i => if i.val = 0 then 400 else 0

/-- An already-halted interpreter configuration. -/
def wHalted : Config :=
  { st := { mem := zeroMem, pc := 7, acc := 3, neg_flag := true, halted := true }
    inputQ := [], outStack := [], logs := [] }

/-- A two-instruction parse result whose label map binds x to 3. -/
def piW : ParseInfo :=
  { instructions := [.Load (.Numeric 1), .Data 42]
    label_map := [("x", 3)], tests := [] }

/-- The image assemble produces for piW: 501 at cell 0, 42 at cell 1,
zero elsewhere. -/
def memW : Mem :=
  Function.update (Function.update (fun _ => 0) ⟨0, by norm_num⟩ 501)
    ⟨1, by norm_num⟩ 42

/-- A parse result holding exactly 100 instructions. -/
def piW100 : ParseInfo :=
  { instructions := List.replicate 100 .Halt, label_map := [], tests := [] }

/-- A parse result holding 99 resolvable instructions. -/
def piW99 : ParseInfo :=
  { instructions := List.replicate 99 (.Add (.Numeric 7))
    label_map := [], tests := [] }

/-- A one-instruction parse result with an unresolvable label. -/
def piWundef : ParseInfo :=
  { instructions := [.Load (.Symbolic "undefined_label")]
    label_map := [], tests := [] }

/-- The configuration a step result carries, or the argument itself when
the step panicked. -/
def stepResCfg (c : Config) : Config :=
  match step c with
  | some (c', _) => c'
  | none => c

/-- The configuration reached by n successful steps, or the start when
some step failed. -/
def runOkCfg (n : Nat) (c : Config) : Config := (runOk n c).getD c

end LNC

namespace LNC

/-! Theorems.  The helper lemmas come first, then one theorem per claim,
each with its witness or counterexample where required. -/

@[simp] theorem logMsg_st (c : Config) (m : String) : (logMsg c m).st = c.st := rfl

@[simp] theorem logMsg_inputQ (c : Config) (m : String) :
    (logMsg c m).inputQ = c.inputQ := rfl

@[simp] theorem logMsg_outStack (c : Config) (m : String) :
    (logMsg c m).outStack = c.outStack := rfl

@[simp] theorem afterFetch_pc (c : Config) (code : Nat) :
    (afterFetch c code).st.pc = c.st.pc + 1 := rfl

@[simp] theorem afterFetch_acc (c : Config) (code : Nat) :
    (afterFetch c code).st.acc = c.st.acc := rfl

@[simp] theorem afterFetch_mem (c : Config) (code : Nat) :
    (afterFetch c code).st.mem = c.st.mem := rfl

@[simp] theorem afterFetch_neg_flag (c : Config) (code : Nat) :
    (afterFetch c code).st.neg_flag = c.st.neg_flag := rfl

@[simp] theorem afterFetch_halted (c : Config) (code : Nat) :
    (afterFetch c code).st.halted = c.st.halted := rfl

@[simp] theorem afterFetch_inputQ (c : Config) (code : Nat) :
    (afterFetch c code).inputQ = c.inputQ := rfl

@[simp] theorem afterFetch_outStack (c : Config) (code : Nat) :
    (afterFetch c code).outStack = c.outStack := rfl

@[simp] theorem ite_logMsg_st (P : Prop) [Decidable P] (c : Config)
    (m : String) : (if P then logMsg c m else c).st = c.st := by
  split_ifs <;> rfl

@[simp] theorem ite_logMsg2_st (P : Prop) [Decidable P] (c : Config)
    (m1 m2 : String) : (if P then logMsg (logMsg c m1) m2 else c).st = c.st := by
  split_ifs <;> rfl

@[simp] theorem lda_st (a : Fin 100) (c : Config) :
    (lda a c).st = { c.st with acc := c.st.mem a } := rfl

@[simp] theorem sto_st (a : Fin 100) (c : Config) :
    (sto a c).st = { c.st with
      mem := Function.update c.st.mem a c.st.acc } := rfl

@[simp] theorem addIns_st (a : Fin 100) (c : Config) :
    (addIns a c).st = { c.st with
      acc := (c.st.acc + c.st.mem a) % 1000
      neg_flag := false } := by
  unfold addIns
  simp only [logMsg_st]
  split_ifs <;> rfl

@[simp] theorem subIns_st (a : Fin 100) (c : Config) :
    (subIns a c).st = { c.st with
      neg_flag := decide ((c.st.acc : Int) - (c.st.mem a : Int) < 0)
      acc := ((((c.st.acc : Int) - (c.st.mem a : Int)) + 1000).emod
        ((2 : Int) ^ 64)).toNat % 1000 } := by
  unfold subIns
  simp only [logMsg_st]
  split_ifs <;> rfl

@[simp] theorem out_st (c : Config) : (out c).st = c.st := rfl

@[simp] theorem hlt_st (c : Config) :
    (hlt c).st = { c.st with halted := true } := rfl

@[simp] theorem brz_st (a : Fin 100) (c : Config) :
    (brz a c).st = { c.st with
      pc := if c.st.acc = 0 then a.val else c.st.pc } := by
  unfold brz
  simp only [logMsg_st]
  split_ifs <;> rfl

@[simp] theorem brp_st (a : Fin 100) (c : Config) :
    (brp a c).st = { c.st with
      pc := if c.st.neg_flag then c.st.pc else a.val } := by
  unfold brp
  simp only [logMsg_st]
  cases hnf : c.st.neg_flag
  · simp
  · simp
    rw [← hnf]

@[simp] theorem bra_st (a : Fin 100) (c : Config) :
    (bra a c).st = { c.st with pc := a.val } := rfl

@[simp] theorem inp_fst_pc (x : Config) : (inp x).1.st.pc = x.st.pc := by
  unfold inp
  rcases hq : x.inputQ <;> simp only [logMsg_inputQ, hq] <;> rfl

@[simp] theorem inp_fst_mem (x : Config) : (inp x).1.st.mem = x.st.mem := by
  unfold inp
  rcases hq : x.inputQ <;> simp only [logMsg_inputQ, hq] <;> rfl

@[simp] theorem inp_fst_halted (x : Config) :
    (inp x).1.st.halted = x.st.halted := by
  unfold inp
  rcases hq : x.inputQ <;> simp only [logMsg_inputQ, hq] <;> rfl

/-- The accumulator after the input handler: the taken queue value, below
1000 by construction, or unchanged when the queue was empty. -/
theorem inp_fst_acc (x : Config) :
    (inp x).1.st.acc = x.st.acc ∨ (inp x).1.st.acc < 1000 := by
  unfold inp
  rcases hq : x.inputQ with _ | ⟨v, rest⟩ <;> simp only [logMsg_inputQ, hq]
  · exact Or.inl rfl
  · exact Or.inr v.isLt

/-- A halted step is the identity on state and ports, adds the one log
message, and returns Ok. -/
theorem step_of_halted (c : Config) (h : c.st.halted = true) :
    step c = some (logMsg c "Cannot step: interpreter is halted",
      Except.ok ()) := by
  simp [step, h]

/-- Claim C4: halting is sticky and idempotent.  A step of a halted
interpreter returns Ok, leaves the whole interpreter state (pc, acc,
neg_flag, memory, halted) unchanged, consumes nothing from the input port
and pushes nothing to the output port, and appends exactly one log event;
consequently over any number of subsequent successful steps the state and
both ports stay unchanged, and in particular halted never becomes false
again. -/
theorem C4_halt_sticky :
    (∀ c : Config, c.st.halted = true →
      ∃ c', step c = some (c', Except.ok ()) ∧ c'.st = c.st ∧
        c'.inputQ = c.inputQ ∧ c'.outStack = c.outStack ∧
        c'.logs = c.logs ++ ["Cannot step: interpreter is halted"]) ∧
    (∀ (n : Nat) (c c' : Config), c.st.halted = true →
      runOk n c = some c' →
      c'.st = c.st ∧ c'.inputQ = c.inputQ ∧ c'.outStack = c.outStack) := by
  constructor
  · intro c h
    exact ⟨_, step_of_halted c h, rfl, rfl, rfl, rfl⟩
  · intro n
    induction n with
    | zero =>
      intro c c' h hr
      simp only [runOk] at hr
      cases hr
      exact ⟨rfl, rfl, rfl⟩
    | succ n ih =>
      intro c c' h hr
      simp only [runOk, stepOk, step_of_halted c h] at hr
      exact ih (logMsg c "Cannot step: interpreter is halted") c' h hr

/-- Witness for C4 at a concrete halted configuration. -/
theorem C4_halt_sticky_witness :
    wHalted.st.halted = true ∧
    ∃ c', step wHalted = some (c', Except.ok ()) ∧ c'.st = wHalted.st ∧
      c'.inputQ = wHalted.inputQ ∧ c'.outStack = wHalted.outStack ∧
      c'.logs = wHalted.logs ++ ["Cannot step: interpreter is halted"] :=
  ⟨rfl, C4_halt_sticky.1 wHalted rfl⟩

/-- The assembler encoding succeeds with a value exactly when the
encoding table of the specification produces that value. -/
theorem encodeIns_ok_iff (ins : Instruction) (lm : LabelMap) (n : Nat) :
    encodeIns ins lm = Except.ok n ↔ specEncode ins lm = some n := by
  cases ins with
  | Load a | Store a | Add a | Subtract a
  | BranchZero a | BranchPositive a | BranchAlways a =>
    cases a with
    | Symbolic s =>
      cases h : lm.lookup s <;>
        simp [encodeIns, specEncode, resolve_addr, resolve_symb_addr, h,
          Except.map]
    | Numeric m =>
      simp [encodeIns, specEncode, resolve_addr, Except.map]
  | Input => simp [encodeIns, specEncode]
  | Output => simp [encodeIns, specEncode]
  | Halt => simp [encodeIns, specEncode]
  | Data d => simp [encodeIns, specEncode]

/-- The assembler encoding fails exactly on a symbolic address absent
from the label map. -/
theorem encodeIns_error_iff (ins : Instruction) (lm : LabelMap) :
    (∃ e, encodeIns ins lm = Except.error e) ↔
      (∃ s, insAddr ins = some (Address.Symbolic s) ∧
        lm.lookup s = none) := by
  cases ins with
  | Load a | Store a | Add a | Subtract a
  | BranchZero a | BranchPositive a | BranchAlways a =>
    cases a with
    | Symbolic s =>
      cases h : lm.lookup s with
      | none =>
        constructor
        · intro _
          exact ⟨s, rfl, h⟩
        · intro _
          exact ⟨"Label '" ++ s ++ "' is not defined",
            by simp only [encodeIns, resolve_addr, resolve_symb_addr, h,
              Except.map]⟩
      | some v =>
        constructor
        · intro ⟨e, he⟩
          simp only [encodeIns, resolve_addr, resolve_symb_addr, h,
            Except.map] at he
          exact Except.noConfusion he
        · intro ⟨s2, hs2, hl⟩
          injection hs2 with h1
          injection h1 with h2
          subst h2
          rw [h] at hl
          exact Option.noConfusion hl
    | Numeric m =>
      constructor
      · intro ⟨e, he⟩
        simp only [encodeIns, resolve_addr, Except.map] at he
        exact Except.noConfusion he
      · intro ⟨s2, hs2, hl⟩
        injection hs2 with h1
        exact Address.noConfusion h1
  | Input =>
    exact ⟨fun ⟨e, he⟩ => Except.noConfusion he,
      fun ⟨s2, hs2, hl⟩ => Option.noConfusion hs2⟩
  | Output =>
    exact ⟨fun ⟨e, he⟩ => Except.noConfusion he,
      fun ⟨s2, hs2, hl⟩ => Option.noConfusion hs2⟩
  | Halt =>
    exact ⟨fun ⟨e, he⟩ => Except.noConfusion he,
      fun ⟨s2, hs2, hl⟩ => Option.noConfusion hs2⟩
  | Data d =>
    exact ⟨fun ⟨e, he⟩ => Except.noConfusion he,
      fun ⟨s2, hs2, hl⟩ => Option.noConfusion hs2⟩

/-- A failing encoding carries the undefined-label diagnostic of
resolve_symb_addr, naming a label absent from the map. -/
theorem encodeIns_error_msg (ins : Instruction) (lm : LabelMap)
    (e : String) (h : encodeIns ins lm = Except.error e) :
    ∃ s, e = "Label '" ++ s ++ "' is not defined" ∧
      lm.lookup s = none := by
  cases ins with
  | Load a | Store a | Add a | Subtract a
  | BranchZero a | BranchPositive a | BranchAlways a =>
    cases a with
    | Symbolic s =>
      cases hl : lm.lookup s <;>
        simp only [encodeIns, resolve_addr, resolve_symb_addr, hl,
          Except.map, Except.error.injEq] at h
      · exact ⟨s, h.symm, hl⟩
      · exact Except.noConfusion h
    | Numeric m =>
      simp [encodeIns, resolve_addr, Except.map] at h
  | Input => simp [encodeIns] at h
  | Output => simp [encodeIns] at h
  | Halt => simp [encodeIns] at h
  | Data d => simp [encodeIns] at h

/-- An instruction whose symbolic address, if any, resolves in the map
encodes successfully. -/
theorem encodeIns_isOk (ins : Instruction) (lm : LabelMap)
    (h : ∀ s, insAddr ins = some (Address.Symbolic s) →
      (lm.lookup s).isSome) :
    ∃ n, encodeIns ins lm = Except.ok n := by
  cases he : encodeIns ins lm with
  | ok n => exact ⟨n, rfl⟩
  | error e =>
    obtain ⟨s, hs, hl⟩ := (encodeIns_error_iff ins lm).1 ⟨e, he⟩
    have h2 := h s hs
    rw [hl] at h2
    exact absurd h2 (by simp)

/-- The write loop of assemble, when every instruction encodes and the
slice fits the image: it succeeds, leaves every cell outside the written
slice unchanged, and fills cell paddr+k with the encoding of the k-th
instruction. -/
theorem assembleLoop_ok (lm : LabelMap) :
    ∀ (l : List Instruction) (paddr : Nat) (mem : Mem),
      paddr + l.length ≤ 100 →
      (∀ ins ∈ l, ∃ n, encodeIns ins lm = Except.ok n) →
      ∃ mem', assembleLoop lm l paddr mem = some (Except.ok mem') ∧
        (∀ i : Fin 100, (i.val < paddr ∨ paddr + l.length ≤ i.val) →
          mem' i = mem i) ∧
        (∀ (i : Fin 100) (ins : Instruction), paddr ≤ i.val →
          l.get? (i.val - paddr) = some ins →
          encodeIns ins lm = Except.ok (mem' i)) := by
  intro l
  induction l with
  | nil =>
    intro paddr mem hle hall
    refine ⟨mem, rfl, fun i _ => rfl, fun i ins _ hget => ?_⟩
    simp at hget
  | cons ins rest ih =>
    intro paddr mem hle hall
    obtain ⟨n, hn⟩ := hall ins (by simp)
    have h100 : paddr < 100 := by
      simp only [List.length_cons] at hle
      omega
    obtain ⟨mem', hloop, hframe, henc⟩ :=
      ih (paddr + 1) (Function.update mem ⟨paddr, h100⟩ n)
        (by simp only [List.length_cons] at hle; omega)
        (fun i hi => hall i (by simp [hi]))
    refine ⟨mem', ?_, ?_, ?_⟩
    · unfold assembleLoop
      rw [hn]
      dsimp only
      rw [dif_pos h100]
      exact hloop
    · intro i hi
      have hne : i ≠ ⟨paddr, h100⟩ := by
        intro he
        subst he
        simp only [List.length_cons, Fin.val_mk] at hi
        omega
      have := hframe i (by simp only [List.length_cons] at hi; omega)
      rw [this, Function.update_noteq hne]
    · intro i ins0 hge hget
      rcases Nat.eq_or_lt_of_le hge with heq | hlt
      · have hi0 : i.val - paddr = 0 := by omega
        rw [hi0] at hget
        simp only [List.get?] at hget
        cases hget
        have hieq : i = ⟨paddr, h100⟩ :=
          Fin.ext (by simp only [Fin.val_mk]; omega)
        have := hframe i (Or.inl (by omega))
        rw [this, hieq, Function.update_same]
        exact hn
      · have hi1 : i.val - paddr = (i.val - (paddr + 1)) + 1 := by omega
        rw [hi1] at hget
        simp only [List.get?] at hget
        exact henc i ins0 (by omega) hget

/-- The write loop never panics when the slice fits the image. -/
theorem assembleLoop_isSome (lm : LabelMap) :
    ∀ (l : List Instruction) (paddr : Nat) (mem : Mem),
      paddr + l.length ≤ 100 →
      (assembleLoop lm l paddr mem).isSome := by
  intro l
  induction l with
  | nil => intro paddr mem hle; simp [assembleLoop]
  | cons ins rest ih =>
    intro paddr mem hle
    have h100 : paddr < 100 := by
      simp only [List.length_cons] at hle
      omega
    unfold assembleLoop
    cases hn : encodeIns ins lm with
    | error e => simp
    | ok n =>
      dsimp only
      rw [dif_pos h100]
      exact ih (paddr + 1) _ (by simp only [List.length_cons] at hle; omega)

/-- The write loop fails exactly when some instruction fails to encode,
and then it surfaces such a failure message. -/
theorem assembleLoop_error (lm : LabelMap) :
    ∀ (l : List Instruction) (paddr : Nat) (mem : Mem),
      paddr + l.length ≤ 100 →
      ((∃ e, assembleLoop lm l paddr mem = some (Except.error e)) ↔
        ∃ ins ∈ l, ∃ e, encodeIns ins lm = Except.error e) ∧
      (∀ e, assembleLoop lm l paddr mem = some (Except.error e) →
        ∃ ins ∈ l, encodeIns ins lm = Except.error e) := by
  intro l
  induction l with
  | nil =>
    intro paddr mem hle
    constructor
    · simp [assembleLoop]
    · intro e he
      simp [assembleLoop] at he
  | cons ins rest ih =>
    intro paddr mem hle
    have h100 : paddr < 100 := by
      simp only [List.length_cons] at hle
      omega
    have hle' : (paddr + 1) + rest.length ≤ 100 := by
      simp only [List.length_cons] at hle
      omega
    cases hn : encodeIns ins lm with
    | error e0 =>
      constructor
      · constructor
        · intro _
          exact ⟨ins, by simp, e0, hn⟩
        · intro _
          refine ⟨e0, ?_⟩
          unfold assembleLoop
          rw [hn]
      · intro e he
        unfold assembleLoop at he
        rw [hn] at he
        simp only [Option.some.injEq] at he
        injection he with h2
        exact ⟨ins, by simp, h2 ▸ hn⟩
    | ok n =>
      have hrec := ih (paddr + 1) (Function.update mem ⟨paddr, h100⟩ n) hle'
      constructor
      · constructor
        · intro ⟨e, he⟩
          unfold assembleLoop at he
          rw [hn] at he
          dsimp only at he
          rw [dif_pos h100] at he
          obtain ⟨ins0, hmem0, e1, he1⟩ := hrec.1.1 ⟨e, he⟩
          exact ⟨ins0, by simp [hmem0], e1, he1⟩
        · intro ⟨ins0, hmem0, e1, he1⟩
          rcases (by simpa using hmem0 : ins0 = ins ∨ ins0 ∈ rest)
            with h | h
          · subst h
            rw [hn] at he1
            exact absurd he1 (by simp)
          · obtain ⟨e, he⟩ := hrec.1.2 ⟨ins0, h, e1, he1⟩
            refine ⟨e, ?_⟩
            unfold assembleLoop
            rw [hn]
            dsimp only
            rw [dif_pos h100]
            exact he
      · intro e he
        unfold assembleLoop at he
        rw [hn] at he
        dsimp only at he
        rw [dif_pos h100] at he
        obtain ⟨ins0, hmem0, he1⟩ := hrec.2 e he
        exact ⟨ins0, by simp [hmem0], he1⟩

/-- Claim C2: for a parse result of fewer than 100 instructions whose
symbolic addresses all resolve, assemble returns an image in which every
cell below the instruction count holds exactly the encoding the
specification table assigns to its instruction — Load 500+addr, Store
300+addr, Add 100+addr, Subtract 200+addr, BranchZero 700+addr,
BranchPositive 800+addr, BranchAlways 600+addr, Input 901, Output 902,
Halt 0, Data verbatim — and every cell at or beyond the count holds 0. -/
theorem C2_assemble_encodes (pi : ParseInfo)
    (hlen : pi.instructions.length < 100)
    (hres : ∀ ins ∈ pi.instructions, ∀ s,
      insAddr ins = some (Address.Symbolic s) →
      (pi.label_map.lookup s).isSome) :
    ∃ mem, assemble pi = some (Except.ok mem) ∧
      (∀ (i : Fin 100) (ins : Instruction),
        pi.instructions.get? i.val = some ins →
        specEncode ins pi.label_map = some (mem i)) ∧
      (∀ i : Fin 100, pi.instructions.length ≤ i.val → mem i = 0) := by
  obtain ⟨mem', hloop, hframe, henc⟩ :=
    assembleLoop_ok pi.label_map pi.instructions 0 (fun _ => 0)
      (by omega)
      (fun ins hi => encodeIns_isOk ins pi.label_map (hres ins hi))
  refine ⟨mem', ?_, ?_, ?_⟩
  · unfold assemble
    rw [if_neg (by omega)]
    exact hloop
  · intro i ins hget
    have h2 := henc i ins (Nat.zero_le _) (by simpa using hget)
    exact (encodeIns_ok_iff ins pi.label_map (mem' i)).1 h2
  · intro i hge
    exact hframe i (Or.inr (by omega))

/-- Witness for C2 at a concrete two-instruction program. -/
theorem C2_assemble_encodes_witness :
    piW.instructions.length < 100 ∧
    ∃ mem, assemble piW = some (Except.ok mem) ∧
      (∀ (i : Fin 100) (ins : Instruction),
        piW.instructions.get? i.val = some ins →
        specEncode ins piW.label_map = some (mem i)) ∧
      (∀ i : Fin 100, piW.instructions.length ≤ i.val → mem i = 0) :=
  ⟨by decide, C2_assemble_encodes piW (by decide) (by
    intro ins hi s hs
    rcases (by simpa [piW] using hi :
        ins = Instruction.Load (Address.Numeric 1) ∨
        ins = Instruction.Data 42) with h | h <;>
      subst h <;> simp [insAddr] at hs)⟩

/-- Claim C6: assemble fails exactly when the instruction count is at
least 100 or some instruction carries a symbolic address absent from the
label map; an over-capacity program is rejected with the over-capacity
diagnostic before any encoding, an unresolved label with the
undefined-label diagnostic; in every case the result is an error value,
never a memory image, and assemble never panics. -/
theorem C6_assemble_errors (pi : ParseInfo) :
    (assemble pi).isSome ∧
    ((∃ e, assemble pi = some (Except.error e)) ↔
      (100 ≤ pi.instructions.length ∨
        ∃ ins ∈ pi.instructions, ∃ s,
          insAddr ins = some (Address.Symbolic s) ∧
          pi.label_map.lookup s = none)) ∧
    (100 ≤ pi.instructions.length →
      assemble pi = some (Except.error ("Too many instructions: "
        ++ toString pi.instructions.length ++ " > 100"))) ∧
    (∀ e, pi.instructions.length < 100 →
      assemble pi = some (Except.error e) →
      ∃ s, e = "Label '" ++ s ++ "' is not defined" ∧
        pi.label_map.lookup s = none) := by
  by_cases hlen : 100 ≤ pi.instructions.length
  · have ha : assemble pi = some (Except.error ("Too many instructions: "
        ++ toString pi.instructions.length ++ " > 100")) := by
      unfold assemble
      rw [if_pos hlen]
    refine ⟨by rw [ha]; rfl, ?_, fun _ => ha, ?_⟩
    · constructor
      · intro _
        exact Or.inl hlen
      · intro _
        exact ⟨_, ha⟩
    · intro e h2 h3
      omega
  · have hle : 0 + pi.instructions.length ≤ 100 := by omega
    have hiff := assembleLoop_error pi.label_map pi.instructions 0
      (fun _ => 0) hle
    have hsome := assembleLoop_isSome pi.label_map pi.instructions 0
      (fun _ => 0) hle
    have ha : assemble pi
        = assembleLoop pi.label_map pi.instructions 0 (fun _ => 0) := by
      unfold assemble
      rw [if_neg hlen]
    refine ⟨?_, ?_, ?_, ?_⟩
    · rw [ha]
      exact hsome
    · rw [ha]
      constructor
      · intro ⟨e, he⟩
        right
        obtain ⟨ins, hins, e1, he1⟩ := hiff.1.1 ⟨e, he⟩
        obtain ⟨s, hs, hl⟩ := (encodeIns_error_iff ins _).1 ⟨e1, he1⟩
        exact ⟨ins, hins, s, hs, hl⟩
      · intro h
        rcases h with h | ⟨ins, hins, s, hs, hl⟩
        · omega
        · exact hiff.1.2
            ⟨ins, hins, (encodeIns_error_iff ins _).2 ⟨s, hs, hl⟩⟩
    · intro h
      exact absurd h hlen
    · intro e _ he
      rw [ha] at he
      obtain ⟨ins, hins, he1⟩ := hiff.2 e he
      exact encodeIns_error_msg ins _ e he1

/-- Witness for C6: a 100-instruction program is rejected over capacity,
and an unresolved label yields the undefined-label diagnostic. -/
theorem C6_assemble_errors_witness :
    assemble piW100
      = some (Except.error "Too many instructions: 100 > 100") ∧
    ∃ s, "Label 'undefined_label' is not defined"
        = "Label '" ++ s ++ "' is not defined" ∧
      piWundef.label_map.lookup s = none :=
  ⟨(C6_assemble_errors piW100).2.2.1 (by decide),
   (C6_assemble_errors piWundef).2.2.2
     "Label 'undefined_label' is not defined" (by decide) (by rfl)⟩

/-- A successful association-list lookup returns a stored binding. -/
theorem lookup_mem {lm : LabelMap} {k : String} {v : Nat}
    (h : lm.lookup k = some v) : (k, v) ∈ lm := by
  induction lm with
  | nil => simp [List.lookup] at h
  | cons p rest ih =>
    obtain ⟨a, b⟩ := p
    by_cases hab : k = a
    · subst hab
      have hfa : (k == k) = true := by simp
      unfold List.lookup at h
      rw [hfa] at h
      dsimp only at h
      injection h with h2
      subst h2
      exact List.mem_cons_self _ _
    · have hfa : (k == a) = false := by simp [hab]
      unfold List.lookup at h
      rw [hfa] at h
      dsimp only at h
      exact List.mem_cons_of_mem _ (ih h)

/-- Pointwise bounds survive one cell update with a bounded value. -/
theorem update_lt (f : Mem) (a : Fin 100) (v : Nat)
    (hf : ∀ i, f i < 1000) (hv : v < 1000) :
    ∀ i, Function.update f a v i < 1000 := by
  intro i
  rcases eq_or_ne i a with h | h
  · rw [h, Function.update_same]
    exact hv
  · rw [Function.update_noteq h]
    exact hf i

/-- A numeric address carried by a well-formed instruction is below
100. -/
theorem insWF_numeric (ins : Instruction) (k : Nat) (hwf : insWF ins)
    (h : insAddr ins = some (Address.Numeric k)) : k < 100 := by
  cases ins <;>
    simp only [insAddr, Option.some.injEq, reduceCtorEq] at h <;>
    (subst h; simpa [insWF, insAddr] using hwf)

/-- Under the data-model ranges, every successful encoding is below
1000. -/
theorem encodeIns_lt_1000 (ins : Instruction) (lm : LabelMap) (n : Nat)
    (hwf : insWF ins) (hlm : ∀ p ∈ lm, p.2 < 100)
    (h : encodeIns ins lm = Except.ok n) : n < 1000 := by
  have haddr : ∀ a m, insAddr ins = some a → resolve_addr a lm = .ok m →
      m < 100 := by
    intro a m hins hres
    cases a with
    | Numeric k =>
      simp only [resolve_addr, Except.ok.injEq] at hres
      subst hres
      exact insWF_numeric ins k hwf hins
    | Symbolic s =>
      simp only [resolve_addr, resolve_symb_addr] at hres
      cases hl : lm.lookup s with
      | none => rw [hl] at hres; exact absurd hres (by simp)
      | some v =>
        rw [hl] at hres
        simp only [Except.ok.injEq] at hres
        subst hres
        have hmem2 := lookup_mem hl
        have := hlm (s, v) hmem2
        have hr : v < 100 := by simpa using this
        omega
  cases ins with
  | Load a =>
    cases hres : resolve_addr a lm with
    | error e => simp [encodeIns, hres, Except.map] at h
    | ok m =>
      simp only [encodeIns, hres, Except.map, Except.ok.injEq] at h
      have := haddr a m rfl hres
      omega
  | Store a =>
    cases hres : resolve_addr a lm with
    | error e => simp [encodeIns, hres, Except.map] at h
    | ok m =>
      simp only [encodeIns, hres, Except.map, Except.ok.injEq] at h
      have := haddr a m rfl hres
      omega
  | Add a =>
    cases hres : resolve_addr a lm with
    | error e => simp [encodeIns, hres, Except.map] at h
    | ok m =>
      simp only [encodeIns, hres, Except.map, Except.ok.injEq] at h
      have := haddr a m rfl hres
      omega
  | Subtract a =>
    cases hres : resolve_addr a lm with
    | error e => simp [encodeIns, hres, Except.map] at h
    | ok m =>
      simp only [encodeIns, hres, Except.map, Except.ok.injEq] at h
      have := haddr a m rfl hres
      omega
  | BranchZero a =>
    cases hres : resolve_addr a lm with
    | error e => simp [encodeIns, hres, Except.map] at h
    | ok m =>
      simp only [encodeIns, hres, Except.map, Except.ok.injEq] at h
      have := haddr a m rfl hres
      omega
  | BranchPositive a =>
    cases hres : resolve_addr a lm with
    | error e => simp [encodeIns, hres, Except.map] at h
    | ok m =>
      simp only [encodeIns, hres, Except.map, Except.ok.injEq] at h
      have := haddr a m rfl hres
      omega
  | BranchAlways a =>
    cases hres : resolve_addr a lm with
    | error e => simp [encodeIns, hres, Except.map] at h
    | ok m =>
      simp only [encodeIns, hres, Except.map, Except.ok.injEq] at h
      have := haddr a m rfl hres
      omega
  | Input =>
    simp only [encodeIns, Except.ok.injEq] at h
    omega
  | Output =>
    simp only [encodeIns, Except.ok.injEq] at h
    omega
  | Halt =>
    simp only [encodeIns, Except.ok.injEq] at h
    omega
  | Data d =>
    simp only [encodeIns, Except.ok.injEq] at h
    have : d < 1000 := hwf
    omega

/-- The write loop keeps all cells below 1000 when it starts from such an
image and every written code is below 1000. -/
theorem assembleLoop_bounds (lm : LabelMap)
    (hlm : ∀ p ∈ lm, p.2 < 100) :
    ∀ (l : List Instruction) (paddr : Nat) (mem : Mem),
      (∀ ins ∈ l, insWF ins) →
      (∀ i, mem i < 1000) →
      ∀ mem', assembleLoop lm l paddr mem = some (Except.ok mem') →
        ∀ i, mem' i < 1000 := by
  intro l
  induction l with
  | nil =>
    intro paddr mem hwf hmem mem' hloop i
    simp only [assembleLoop, Option.some.injEq, Except.ok.injEq] at hloop
    subst hloop
    exact hmem i
  | cons ins rest ih =>
    intro paddr mem hwf hmem mem' hloop i
    unfold assembleLoop at hloop
    cases hn : encodeIns ins lm with
    | error e =>
      rw [hn] at hloop
      simp at hloop
    | ok n =>
      rw [hn] at hloop
      dsimp only at hloop
      by_cases h100 : paddr < 100
      · rw [dif_pos h100] at hloop
        exact ih (paddr + 1) _ (fun j hj => hwf j (by simp [hj]))
          (update_lt mem ⟨paddr, h100⟩ n hmem
            (encodeIns_lt_1000 ins lm n (hwf ins (by simp)) hlm hn))
          mem' hloop i
      · rw [dif_neg h100] at hloop
        exact absurd hloop (by simp)

set_option maxHeartbeats 1000000 in
/-- One step keeps the accumulator and every memory cell below 1000:
loads copy a bounded cell, stores write the bounded accumulator,
arithmetic reduces modulo 1000, and inputs are LNCInput values, below
1000 by construction. -/
theorem step_preserves_bounds (c c' : Config) (r : Except String Unit)
    (hInv : InvBounds c) (hs : step c = some (c', r)) : InvBounds c' := by
  obtain ⟨hacc, hmem⟩ := hInv
  unfold step at hs
  by_cases hH : c.st.halted
  · rw [if_pos hH] at hs
    injection hs with h2
    injection h2 with h3 h4
    subst h3
    exact ⟨hacc, hmem⟩
  · rw [if_neg hH] at hs
    by_cases hpc : c.st.pc < 100
    case neg =>
      rw [dif_neg hpc] at hs
      exact absurd hs (by simp)
    rw [dif_pos hpc] at hs
    dsimp only at hs
    split_ifs at hs
    all_goals injection hs with h2
    all_goals
      first
        | (injection h2 with h3 h4
           subst h3
           refine ⟨?_, ?_⟩ <;>
             simp only [lda_st, sto_st, addIns_st, subIns_st, out_st,
               hlt_st, brz_st, brp_st, bra_st, logMsg_st, afterFetch_acc,
               afterFetch_mem] <;>
             first
               | exact hacc
               | exact hmem
               | exact hmem _
               | exact Nat.mod_lt _ (by norm_num)
               | exact update_lt _ _ _ hmem hacc)
        | (have h3 : (inp (afterFetch c (c.st.mem ⟨c.st.pc, hpc⟩))).1 = c' := by
             rw [h2]
           subst h3
           refine ⟨?_, ?_⟩
           · rcases inp_fst_acc (afterFetch c (c.st.mem ⟨c.st.pc, hpc⟩))
               with h5 | h5
             · rw [h5, afterFetch_acc]
               exact hacc
             · exact h5
           · intro i
             rw [inp_fst_mem, afterFetch_mem]
             exact hmem i)

/-- Claim C7: every value stored in a memory cell or the accumulator is
below 1000 at all times.  Any image assemble produces from parse output
within the data-model ranges satisfies it, every interpreter step
preserves it — the input port yields only LNCInput values, which are
below 1000 by construction — and the LNCInput constructor indeed rejects
every value of 1000 or more. -/
theorem C7_value_bounds :
    (∀ (pi : ParseInfo) (mem : Mem), wfParseInfo pi →
      assemble pi = some (Except.ok mem) → ∀ i, mem i < 1000) ∧
    (∀ (c c' : Config) (r : Except String Unit),
      InvBounds c → step c = some (c', r) → InvBounds c') ∧
    (∀ n, 1000 ≤ n → LNCInput.new n = none) := by
  refine ⟨?_, step_preserves_bounds, ?_⟩
  · intro pi mem hwf ha i
    unfold assemble at ha
    by_cases hlen : 100 ≤ pi.instructions.length
    · rw [if_pos hlen] at ha
      exact absurd ha (by simp)
    · rw [if_neg hlen] at ha
      exact assembleLoop_bounds pi.label_map
        (fun p hp => hwf.2 p hp) pi.instructions 0 (fun _ => 0)
        hwf.1 (fun _ => by norm_num) mem ha i
  · intro n hn
    unfold LNCInput.new
    rw [dif_neg (by omega)]

/-- Witness for C7: the two-instruction program assembles to a bounded
image, a halt step keeps the zero state bounded, and 1000 is rejected by
the LNCInput constructor. -/
theorem C7_value_bounds_witness :
    (∀ i, memW i < 1000) ∧
    InvBounds (stepResCfg (initConfig zeroMem [])) ∧
    LNCInput.new 1000 = none :=
  ⟨C7_value_bounds.1 piW memW
     ⟨by
        intro ins hi
        simp only [piW, List.mem_cons, List.not_mem_nil, or_false] at hi
        rcases hi with h | h <;> subst h <;> norm_num [insWF, insAddr],
      by
        intro p hp
        simp only [piW, List.mem_cons, List.not_mem_nil, or_false] at hp
        subst hp
        norm_num⟩ (by rfl),
   C7_value_bounds.2.1 (initConfig zeroMem [])
     (stepResCfg (initConfig zeroMem [])) (Except.ok ())
     ⟨by norm_num [initConfig], fun i => by norm_num [initConfig, zeroMem]⟩
     (by rfl),
   C7_value_bounds.2.2 1000 (by omega)⟩

/-- Claim C10: for any fetched code the dispatch operand is a remainder
modulo 100, hence below 100, so every memory access of the Load, Store,
Add and Subtract handlers is within the 100-cell image whatever the image
holds; given that the fetch at pc itself is in bounds, a non-halted step
therefore never panics. -/
theorem C10_mem_safety (c : Config) (hH : c.st.halted = false)
    (hpc : c.st.pc < 100) :
    fetchedCode c hpc % 100 < 100 ∧ (step c).isSome := by
  refine ⟨Nat.mod_lt _ (by norm_num), ?_⟩
  unfold step
  rw [if_neg (by simp [hH]), dif_pos hpc]
  dsimp only
  split_ifs <;> simp

/-- Witness for C10 at a concrete configuration. -/
theorem C10_mem_safety_witness :
    fetchedCode (initConfig wMemUndef []) (by decide) % 100 < 100 ∧
    (step (initConfig wMemUndef [])).isSome :=
  C10_mem_safety (initConfig wMemUndef []) rfl (by decide)

/-- Claim C5: a non-halted step dispatching a BranchPositive (class 8)
instruction sets pc to the operand exactly when neg_flag is false — the
accumulator is not consulted, so this includes acc equal to zero — and
when neg_flag is true leaves pc at its already incremented value; nothing
else changes. -/
theorem C5_brp (c : Config) (hH : c.st.halted = false)
    (hpc : c.st.pc < 100) (hc : fetchedCode c hpc / 100 = 8) :
    ∃ c', step c = some (c', Except.ok ()) ∧
      c'.st.pc = (if c.st.neg_flag then c.st.pc + 1
        else (fetchedOp c hpc).val) ∧
      c'.st.acc = c.st.acc ∧ c'.st.neg_flag = c.st.neg_flag ∧
      c'.st.mem = c.st.mem ∧ c'.st.halted = false ∧
      c'.inputQ = c.inputQ ∧ c'.outStack = c.outStack := by
  unfold fetchedCode at hc
  unfold step
  rw [if_neg (by simp [hH]), dif_pos hpc]
  simp only [hc]
  norm_num
  unfold brp fetchedOp fetchedCode
  cases hnf : c.st.neg_flag with
  | true => simp [hnf, logMsg, hH]
  | false => simp [hnf, logMsg, hH, hc]

/-- Witness for C5 at a concrete brp configuration with neg_flag
clear and accumulator zero. -/
theorem C5_brp_witness :
    ∃ c', step (initConfig wMemBrp []) = some (c', Except.ok ()) ∧
      c'.st.pc = (if (initConfig wMemBrp []).st.neg_flag
        then (initConfig wMemBrp []).st.pc + 1
        else (fetchedOp (initConfig wMemBrp []) (by decide)).val) ∧
      c'.st.acc = (initConfig wMemBrp []).st.acc ∧
      c'.st.neg_flag = (initConfig wMemBrp []).st.neg_flag ∧
      c'.st.mem = (initConfig wMemBrp []).st.mem ∧
      c'.st.halted = false ∧
      c'.inputQ = (initConfig wMemBrp []).inputQ ∧
      c'.outStack = (initConfig wMemBrp []).outStack :=
  C5_brp (initConfig wMemBrp []) rfl (by decide) (by decide)

/-- The accumulator value the subtract handler computes, for operands
below 1000, is the signed difference wrapped into the range below 1000:
the usize cast modulo 2 to the 64 never interferes there. -/
theorem subWrapMax (a b : Nat) (ha : a < 1000) (hb : b < 1000) :
    ((((a : Int) - (b : Int) + 1000).emod 18446744073709551616) ⊔ 0) % 1000
      = ((a : Int) - (b : Int)) % 1000 := by
  have ha1 : (a : Int) < 1000 := by exact_mod_cast ha
  have hb1 : (b : Int) < 1000 := by exact_mod_cast hb
  have h1 : ((a : Int) - (b : Int) + 1000).emod 18446744073709551616
      = (a : Int) - (b : Int) + 1000 :=
    Int.emod_eq_of_lt (by omega) (by omega)
  rw [h1, max_eq_left (by omega : (0 : Int) ≤ (a : Int) - (b : Int) + 1000)]
  omega

/-- Claim C3: a non-halted step dispatching Add (class 1), with the
accumulator and all cells below 1000, sets the accumulator to the sum with
the operand cell modulo 1000 — hence below 1000 — and clears neg_flag; one
dispatching Subtract (class 2) leaves the accumulator below 1000, equal to
the signed difference wrapped into that range, and sets neg_flag exactly
when the true signed difference is negative. -/
theorem C3_arith (c : Config) (hH : c.st.halted = false)
    (hpc : c.st.pc < 100) (hacc : c.st.acc < 1000)
    (hmem : ∀ i, c.st.mem i < 1000) :
    (fetchedCode c hpc / 100 = 1 →
      ∃ c', step c = some (c', Except.ok ()) ∧
        c'.st.acc = (c.st.acc + c.st.mem (fetchedOp c hpc)) % 1000 ∧
        c'.st.acc < 1000 ∧ c'.st.neg_flag = false) ∧
    (fetchedCode c hpc / 100 = 2 →
      ∃ c', step c = some (c', Except.ok ()) ∧
        c'.st.acc < 1000 ∧
        (c'.st.acc : Int) =
          ((c.st.acc : Int) - (c.st.mem (fetchedOp c hpc) : Int)) % 1000 ∧
        (c'.st.neg_flag = true ↔
          (c.st.acc : Int) - (c.st.mem (fetchedOp c hpc) : Int) < 0)) := by
  constructor
  · intro hc
    unfold fetchedCode at hc
    unfold step
    rw [if_neg (by simp [hH]), dif_pos hpc]
    dsimp only
    rw [hc]
    norm_num
    unfold fetchedOp fetchedCode
    exact ⟨rfl, Nat.mod_lt _ (by norm_num)⟩
  · intro hc
    unfold fetchedCode at hc
    unfold step
    rw [if_neg (by simp [hH]), dif_pos hpc]
    dsimp only
    rw [hc]
    norm_num
    unfold fetchedOp fetchedCode
    refine ⟨Nat.mod_lt _ (by norm_num), ?_, Iff.rfl⟩
    exact subWrapMax _ _ hacc
      (hmem ⟨c.st.mem ⟨c.st.pc, hpc⟩ % 100, Nat.mod_lt _ (by norm_num)⟩)

/-- Witness for C3 at concrete add and subtract configurations. -/
theorem C3_arith_witness :
    (∃ c', step (initConfig wMemAdd []) = some (c', Except.ok ()) ∧
      c'.st.acc = ((initConfig wMemAdd []).st.acc +
        (initConfig wMemAdd []).st.mem
          (fetchedOp (initConfig wMemAdd []) (by decide))) % 1000 ∧
      c'.st.acc < 1000 ∧ c'.st.neg_flag = false) ∧
    (∃ c', step (initConfig wMemSub []) = some (c', Except.ok ()) ∧
      c'.st.acc < 1000 ∧
      (c'.st.acc : Int) = (((initConfig wMemSub []).st.acc : Int) -
        ((initConfig wMemSub []).st.mem
          (fetchedOp (initConfig wMemSub []) (by decide)) : Int)) % 1000 ∧
      (c'.st.neg_flag = true ↔
        ((initConfig wMemSub []).st.acc : Int) -
          ((initConfig wMemSub []).st.mem
            (fetchedOp (initConfig wMemSub []) (by decide)) : Int) < 0)) :=
  ⟨(C3_arith (initConfig wMemAdd []) rfl (by decide) (by decide)
      (by decide)).1 (by decide),
   (C3_arith (initConfig wMemSub []) rfl (by decide) (by decide)
      (by decide)).2 (by decide)⟩

/-- When the input handler fails, the configuration it returns is the
argument with only the inp log message appended: the queue was empty, so
nothing else changed. -/
theorem inp_error (x c' : Config) (msg : String)
    (h : inp x = (c', Except.error msg)) : c' = logMsg x "--> inp" := by
  unfold inp at h
  rcases hq : x.inputQ with _ | ⟨v, rest⟩ <;>
    simp only [logMsg_inputQ, hq] at h
  · injection h with h1 h2
    exact h1.symm
  · exact absurd h (by simp)

/-- Claim C9: when a non-halted step returns an error — an undefined
instruction, or the input source failing on an Input instruction — the
program counter has already advanced by exactly one past the faulting
instruction, while the accumulator, neg_flag, the halted flag and every
memory cell keep the values they had before the call. -/
theorem C9_error_frame (c c' : Config) (msg : String)
    (hH : c.st.halted = false)
    (hstep : step c = some (c', Except.error msg)) :
    c'.st.pc = c.st.pc + 1 ∧ c'.st.acc = c.st.acc ∧
    c'.st.neg_flag = c.st.neg_flag ∧ c'.st.halted = false ∧
    c'.st.mem = c.st.mem := by
  unfold step at hstep
  rw [if_neg (by simp [hH])] at hstep
  by_cases hpc : c.st.pc < 100
  case neg =>
    rw [dif_neg hpc] at hstep
    exact absurd hstep (by simp)
  rw [dif_pos hpc] at hstep
  dsimp only at hstep
  split_ifs at hstep
  all_goals injection hstep with h2
  all_goals
    first
      | (injection h2 with h3 h4
         first
           | exact Except.noConfusion h4
           | (subst h3; exact ⟨rfl, rfl, rfl, hH, rfl⟩))
      | (have h3 := inp_error _ _ _ h2
         subst h3
         exact ⟨rfl, rfl, rfl, hH, rfl⟩)

set_option maxHeartbeats 1000000 in
/-- One step never takes the program counter above 100: a non-halted step
requires pc below 100 for its fetch, then either increments it once or
branches to an operand below 100. -/
theorem step_pc_le (c c' : Config) (r : Except String Unit)
    (hs : step c = some (c', r)) (hle : c.st.pc ≤ 100) :
    c'.st.pc ≤ 100 := by
  unfold step at hs
  by_cases hH : c.st.halted
  · rw [if_pos hH] at hs
    injection hs with h2
    injection h2 with h3 h4
    subst h3
    simpa using hle
  · rw [if_neg hH] at hs
    by_cases hpc : c.st.pc < 100
    case neg =>
      rw [dif_neg hpc] at hs
      exact absurd hs (by simp)
    rw [dif_pos hpc] at hs
    dsimp only at hs
    split_ifs at hs
    all_goals injection hs with h2
    all_goals
      first
        | (injection h2 with h3 h4
           subst h3
           simp only [lda_st, sto_st, addIns_st, subIns_st, out_st, hlt_st,
             brz_st, brp_st, bra_st, logMsg_st, afterFetch_pc, Fin.val_mk]
           first
             | omega
             | (split_ifs <;> omega))
        | (have h3 : (inp (afterFetch c (c.st.mem ⟨c.st.pc, hpc⟩))).1 = c' := by
             rw [h2]
           rw [← h3, inp_fst_pc, afterFetch_pc]
           omega)

/-- The program counter of any configuration reached from another by
successful steps stays at most 100 when it started at most 100. -/
theorem runOk_pc_le (n : Nat) (c c' : Config) (hr : runOk n c = some c')
    (hle : c.st.pc ≤ 100) : c'.st.pc ≤ 100 := by
  induction n generalizing c with
  | zero =>
    simp only [runOk] at hr
    cases hr
    exact hle
  | succ n ih =>
    simp only [runOk] at hr
    rcases hq : stepOk c with _ | c1
    · rw [hq] at hr
      exact absurd hr (by simp)
    · rw [hq] at hr
      unfold stepOk at hq
      cases hs : step c with
      | none =>
        rw [hs] at hq
        exact absurd hq (by simp)
      | some p =>
        obtain ⟨c2, r⟩ := p
        rw [hs] at hq
        cases r with
        | ok u =>
          simp only at hq
          cases hq
          exact ih _ hr (step_pc_le c _ (.ok u) hs hle)
        | error e =>
          simp only at hq
          exact absurd hq (by simp)

/-- Claim C1 as amended: from the initial interpreter state, after any
sequence of successful steps the program counter is at most 100, and when
it has reached 100 without the machine halting, the next step does not
execute at all — its fetch is out of bounds — so no instruction is ever
fetched outside the image; the counter can, however, transiently equal
100, so it is not always below 100. -/
theorem C1_pc_bound :
    (∀ (mem : Mem) (inq : List LNCInput) (n : Nat) (c' : Config),
      runOk n (initConfig mem inq) = some c' → c'.st.pc ≤ 100) ∧
    (∀ c : Config, c.st.halted = false → 100 ≤ c.st.pc → step c = none) := by
  constructor
  · intro mem inq n c' hr
    exact runOk_pc_le n (initConfig mem inq) c' hr (by simp [initConfig])
  · intro c hH hge
    unfold step
    rw [if_neg (by simp [hH]), dif_neg (by omega)]

/-- Witness for C1 as amended, at the concrete counterexample memory. -/
theorem C1_pc_bound_witness :
    (runOkCfg 2 (initConfig cexMem [])).st.pc ≤ 100 :=
  C1_pc_bound.1 cexMem [] 2 (runOkCfg 2 (initConfig cexMem [])) (by rfl)

/-- Counterexample for claim C1 as stated: with the image that branches
to address 99 and holds an add instruction there, two successful steps
reach program counter 100 with the machine not halted, so the counter is
not always below 100 while not halted. -/
theorem C1_counterexample :
    ¬ (∀ (mem : Mem) (inq : List LNCInput) (n : Nat) (c' : Config),
      runOk n (initConfig mem inq) = some c' →
      c'.st.halted = true ∨ c'.st.pc < 100) := by
  intro h
  have hmap : (runOk 2 (initConfig cexMem [])).map
      (fun c => (c.st.pc, c.st.halted)) = some (100, false) := by rfl
  rcases hr : runOk 2 (initConfig cexMem []) with _ | c2
  · rw [hr] at hmap
    exact Option.noConfusion hmap
  · have h3 := h cexMem [] 2 c2 hr
    rw [hr] at hmap
    simp only [Option.map_some'] at hmap
    injection hmap with h4
    injection h4 with h5 h6
    rcases h3 with h3 | h3
    · rw [h3] at h6
      exact Bool.noConfusion h6
    · omega

/-- Claim C8: the source line add: (a mnemonic used as a label
definition) compiles to exactly one line-scoped lexical diagnostic, the
line 99 99 (a numeric token at statement start) to exactly one
line-scoped syntax diagnostic, and a file containing both lines reports
both messages in one aggregate diagnostic, joined by a newline, in one
pass — neither error suppresses the other. -/
theorem C8_diagnostics :
    progErr (make_program "add:")
      = some "error @ line 0: cannot use keyword \"add\" as label name" ∧
    progErr (make_program "99 99")
      = some
        "error @ line 0: found number (99) instead of instruction/label def" ∧
    progErr (make_program "add:\n99 99")
      = some ("error @ line 0: cannot use keyword \"add\" as label name"
        ++ "\n"
        ++ "error @ line 1: found number (99) instead of instruction/label def")
    := ⟨rfl, rfl, rfl⟩

/-- Witness for C9: the undefined code 400 faults with the pc advanced
and nothing else changed. -/
theorem C9_error_frame_witness :
    (stepResCfg (initConfig wMemUndef [])).st.pc
        = (initConfig wMemUndef []).st.pc + 1 ∧
      (stepResCfg (initConfig wMemUndef [])).st.acc
        = (initConfig wMemUndef []).st.acc ∧
      (stepResCfg (initConfig wMemUndef [])).st.neg_flag
        = (initConfig wMemUndef []).st.neg_flag ∧
      (stepResCfg (initConfig wMemUndef [])).st.halted = false ∧
      (stepResCfg (initConfig wMemUndef [])).st.mem
        = (initConfig wMemUndef []).st.mem :=
  C9_error_frame (initConfig wMemUndef []) _ "40: undefined instruction"
    rfl (by rfl)

end LNC
